import Mathlib

/-!
Verification of the 5G network QoS simulator (`simulator.py`).

The source program is embedded shallowly: Python floats become real numbers
(`ℝ`), the mutable per-terminal state of class `UE` becomes an immutable
structure that the step function rewrites, the `np.random` draws become
explicit oracle arguments (a fading sample per terminal per step, an integer
distance draw per terminal at construction), and the `raise ValueError` in
`FiveGSimulator.run` becomes an `Option String` error component carried next
to the partially mutated state (a Python exception leaves the in-place
mutations already performed).  Plotting / CSV export (`save_results`) and
directory creation are I/O collaborators outside the modelled core.
-/

/-- Class `UE` (simulator.py lines 19-26): per-terminal mutable state. -/
structure UE where
  id : ℕ
  distance : ℝ
  throughput_history : List ℝ
  latency_history : List ℝ
  snr_history : List ℝ
  avg_throughput : ℝ

instance : Inhabited UE :=
  ⟨{ id := 0, distance := 0, throughput_history := [], latency_history := [],
     snr_history := [], avg_throughput := 0 }⟩

/-- `UE.__init__`: histories start empty, `avg_throughput` starts at `1e-6`
("to avoid divide by zero"), the distance is stored unchecked. -/
noncomputable def UE.init (ue_id : ℕ) (distance_m : ℝ) : UE :=
  { id := ue_id, distance := distance_m, throughput_history := [],
    latency_history := [], snr_history := [], avg_throughput := 1e-6 }

/-- Configuration and terminal state of class `FiveGSimulator`
(lines 33-51); `out_dir` and the `os.makedirs` call are exporter I/O and
are not modelled. -/
structure FiveGSimulator where
  num_ues : ℕ
  total_bw_hz : ℝ
  tx_power_dbm : ℝ
  noise_fig_db : ℝ
  mimo_gain : ℝ
  scheduler : String
  sim_steps : ℕ
  ues : List UE

/-- `FiveGSimulator.__init__` (lines 33-51): stores the parameters unchecked
and builds the UE list with one distance draw per terminal.  `randint`
models the per-terminal `np.random.randint(50, 500)` draws (its contract,
`50 ≤ randint i < 500`, is a hypothesis where needed). -/
noncomputable def FiveGSimulator.init (num_ues : ℕ)
    (total_bw_hz tx_power_dbm noise_fig_db mimo_gain : ℝ)
    (scheduler : String) (sim_steps : ℕ) (randint : ℕ → ℕ) : FiveGSimulator :=
  { num_ues := num_ues, total_bw_hz := total_bw_hz,
    tx_power_dbm := tx_power_dbm, noise_fig_db := noise_fig_db,
    mimo_gain := mimo_gain, scheduler := scheduler, sim_steps := sim_steps,
    ues := (List.range num_ues).map (fun i => UE.init i ((randint i : ℕ) : ℝ)) }

/-- `path_loss_db` (lines 56-62), log-distance model at the default carrier
frequency 3.5 GHz (the only frequency the program ever uses). -/
noncomputable def path_loss_db (d : ℝ) : ℝ :=
  let f : ℝ := 3.5e9
  let c : ℝ := 3e8
  let d0 : ℝ := 1
  let pl_d0 : ℝ := 20 * Real.logb 10 (4 * Real.pi * d0 * f / c)
  let n : ℝ := 3.0
  pl_d0 + 10 * n * Real.logb 10 (d / d0)

/-- `noise_power_dbm` (lines 64-66). -/
noncomputable def noise_power_dbm (noise_fig_db bw_hz : ℝ) : ℝ :=
  let kT_dbm_hz : ℝ := -174
  kT_dbm_hz + 10 * Real.logb 10 bw_hz + noise_fig_db

/-- Fading gain in dB (line 79): `20*log10(fading + 1e-9)`, `fading` being
that terminal's Rayleigh draw for the step. -/
noncomputable def fading_db_of (fading : ℝ) : ℝ :=
  20 * Real.logb 10 (fading + 1e-9)

/-- SNR in dB for one terminal in one step (lines 77-83). -/
noncomputable def snr_db_of (sim : FiveGSimulator) (ue : UE) (fading : ℝ) : ℝ :=
  let pl := path_loss_db ue.distance
  let mimo_gain_db := 10 * Real.logb 10 sim.mimo_gain
  let rx_power := sim.tx_power_dbm - pl + fading_db_of fading + mimo_gain_db
  let noise_dbm := noise_power_dbm sim.noise_fig_db sim.total_bw_hz
  rx_power - noise_dbm

/-- Linear SNR (line 84): `10**(snr_db/10)`. -/
noncomputable def snr_lin_of (sim : FiveGSimulator) (ue : UE) (fading : ℝ) : ℝ :=
  (10 : ℝ) ^ (snr_db_of sim ue fading / 10)

/-- Shannon capacity against total bandwidth (line 85), used only for the
proportional-fair weights. -/
noncomputable def inst_cap_of (sim : FiveGSimulator) (ue : UE) (fading : ℝ) : ℝ :=
  sim.total_bw_hz * Real.logb 2 (1 + snr_lin_of sim ue fading)

/-- Realized capacity in bits/sec against an allocated bandwidth (line 103). -/
noncomputable def cap_bps_of (bw snr_lin : ℝ) : ℝ :=
  bw * Real.logb 2 (1 + snr_lin)

/-- Latency model (lines 107-111): transmission time for a 1 Mbit packet at
the epsilon-floored realized capacity, plus propagation delay, plus 1 ms,
converted to milliseconds. -/
noncomputable def latency_ms_of (distance cap_bps : ℝ) : ℝ :=
  let packet_bits : ℝ := 1e6
  let tx_time_s := packet_bits / (cap_bps + 1e-9)
  let prop_delay_s := distance / 3e8
  (tx_time_s + prop_delay_s + 1e-3) * 1000

/-- Modelled from the spec: "derive latency (ms) as transmission time for a
fixed reference packet size (1 megabit) at that capacity, plus propagation
delay (`distance / speedOfLight`), plus a fixed minimum processing delay
(1 ms)" — i.e. the transmission time divides by exactly the realized
capacity, with no epsilon floor.  Kept separate so it can be compared with
`latency_ms_of`, which is what the code computes. -/
noncomputable def spec_latency_ms (distance cap_bps : ℝ) : ℝ :=
  (1e6 / cap_bps + distance / 3e8 + 1e-3) * 1000

/-- Metrics-phase update of one terminal (lines 102-115): append throughput
and latency, update the running average by the 0.9/0.1 EMA. -/
noncomputable def metricsStep (ue : UE) (bw snr_lin : ℝ) : UE :=
  let throughput_mbps := cap_bps_of bw snr_lin / 1e6
  { ue with
    throughput_history := ue.throughput_history ++ [throughput_mbps],
    latency_history :=
      ue.latency_history ++ [latency_ms_of ue.distance (cap_bps_of bw snr_lin)],
    avg_throughput := 0.9 * ue.avg_throughput + 0.1 * throughput_mbps }

/-- Link phase of one step (lines 74-89): every terminal gets its SNR sample
appended before the scheduler branch is reached.  `f i` is the Rayleigh draw
of the `i`-th terminal (draws happen in iteration order). -/
noncomputable def linkPhase (sim : FiveGSimulator) (ues : List UE) (f : ℕ → ℝ) :
    List UE :=
  List.zipWith
    (fun i ue => { ue with snr_history := ue.snr_history ++ [snr_db_of sim ue (f i)] })
    (List.range ues.length) ues

/-- The per-terminal linear SNRs collected in the link phase. -/
noncomputable def snrsLinear (sim : FiveGSimulator) (ues : List UE) (f : ℕ → ℝ) :
    List ℝ :=
  List.zipWith (fun i ue => snr_lin_of sim ue (f i)) (List.range ues.length) ues

/-- The per-terminal instantaneous capacities collected in the link phase. -/
noncomputable def instCaps (sim : FiveGSimulator) (ues : List UE) (f : ℕ → ℝ) :
    List ℝ :=
  List.zipWith (fun i ue => inst_cap_of sim ue (f i)) (List.range ues.length) ues

/-- Equal-share allocation (line 93): `[total_bw_hz / num_ues] * num_ues`. -/
noncomputable def equal_alloc (total_bw_hz : ℝ) (num_ues : ℕ) : List ℝ :=
  List.replicate num_ues (total_bw_hz / (num_ues : ℝ))

/-- Proportional-fair weights (line 95): `c / (avg_throughput + 1e-9)`. -/
noncomputable def pf_weights (inst_caps : List ℝ) (ues : List UE) : List ℝ :=
  List.zipWith (fun c ue => c / (ue.avg_throughput + 1e-9)) inst_caps ues

/-- Proportional-fair allocation (lines 95-97): normalized weights times
total bandwidth. -/
noncomputable def pf_alloc (total_bw_hz : ℝ) (inst_caps : List ℝ) (ues : List UE) :
    List ℝ :=
  let weights := pf_weights inst_caps ues
  let total_w := weights.sum
  weights.map (fun w => w / total_w * total_bw_hz)

/-- The bandwidth allocation a step computes for the given pre-step terminal
states (lines 92-97); which branch runs is decided by the scheduler string. -/
noncomputable def stepAlloc (sim : FiveGSimulator) (ues : List UE) (f : ℕ → ℝ) :
    List ℝ :=
  if sim.scheduler = "equal" then equal_alloc sim.total_bw_hz sim.num_ues
  else pf_alloc sim.total_bw_hz (instCaps sim ues f) ues

/-- Metrics phase (lines 102-115): `zip` over terminals, allocations and
SNRs, truncating to the shortest exactly as Python's `zip` does. -/
noncomputable def metricsPhase (ues : List UE) (bw_alloc snrs : List ℝ) : List UE :=
  List.zipWith (fun ue p => metricsStep ue p.1 p.2) ues (List.zip bw_alloc snrs)

/-- The `ValueError` message of line 99 (modulo quoting). -/
def schedulerErrorMsg : String := "Scheduler must be equal or pf"

/-- One iteration of the loop body of `FiveGSimulator.run` (lines 72-115).
The second component is the raised error, if any; the first component is the
terminal state as mutated so far (the link phase has already appended the
SNR samples when the scheduler branch raises). -/
noncomputable def simStep (sim : FiveGSimulator) (ues : List UE) (f : ℕ → ℝ) :
    List UE × Option String :=
  let ues1 := linkPhase sim ues f
  if sim.scheduler = "equal" then
    (metricsPhase ues1 (stepAlloc sim ues f) (snrsLinear sim ues f), none)
  else if sim.scheduler = "pf" then
    (metricsPhase ues1 (stepAlloc sim ues f) (snrsLinear sim ues f), none)
  else
    (ues1, some schedulerErrorMsg)

/-- The first `n` iterations of `FiveGSimulator.run`'s loop; `fad t i` is the
Rayleigh draw of terminal `i` at step `t`.  A raised error stops the loop and
is propagated with the state reached so far. -/
noncomputable def runSteps (sim : FiveGSimulator) (fad : ℕ → ℕ → ℝ) :
    ℕ → List UE × Option String
  | 0 => (sim.ues, none)
  | n + 1 =>
    match runSteps sim fad n with
    | (ues, none) => simStep sim ues (fad n)
    | (ues, some e) => (ues, some e)

/-- `FiveGSimulator.run` (lines 71-117) up to the `save_results` export call,
which is outside the modelled core. -/
noncomputable def FiveGSimulator.run (sim : FiveGSimulator) (fad : ℕ → ℕ → ℝ) :
    List UE × Option String :=
  runSteps sim fad sim.sim_steps

/-! ### Concrete configurations for instantiating the theorems -/

/-- A constant unit Rayleigh-draw stream. -/
noncomputable def fadOne : ℕ → ℕ → ℝ := fun _ _ => 1

/-- A constant distance-draw stream (value inside `randint(50, 500)` range). -/
def draws100 : ℕ → ℕ := fun _ => 100

/-- A valid one-terminal equal-share configuration. -/
noncomputable def simEq : FiveGSimulator :=
  FiveGSimulator.init 1 20e6 43 7 2 "equal" 1 draws100

/-- A valid one-terminal proportional-fair configuration. -/
noncomputable def simPf : FiveGSimulator :=
  FiveGSimulator.init 1 20e6 43 7 2 "pf" 1 draws100

/-- The one-terminal configuration with the unrecognized scheduler `"foo"`. -/
noncomputable def simFoo : FiveGSimulator :=
  FiveGSimulator.init 1 20e6 43 7 2 "foo" 1 draws100

/-- An invalid configuration: negative total bandwidth. -/
noncomputable def simNeg : FiveGSimulator :=
  FiveGSimulator.init 1 (-1) 43 7 2 "equal" 1 draws100

/-- Every division and logarithm argument occurring in one iteration of the
loop body, listed in source order: the two `log10` arguments of
`path_loss_db` (lines 60, 62), the epsilon-floored fading argument
(line 79), the MIMO gain (line 80), the bandwidth in `noise_power_dbm`
(line 66), the Shannon-capacity log arguments (lines 85, 103), the divisor
`num_ues` (line 93), the epsilon-floored weight denominators and the weight
normalizer (lines 95-97), and the constant divisors `1e6`, epsilon-floored
`cap_bps`, `3e8` of the metrics phase (lines 104-110).  The step is
numerically safe when all are strictly positive (divisors nonzero). -/
def stepSafe (sim : FiveGSimulator) (ues : List UE) (f : ℕ → ℝ) : Prop :=
  (0 : ℝ) < 4 * Real.pi * 1 * 3.5e9 / 3e8 ∧
  (∀ ue ∈ ues, (0 : ℝ) < ue.distance / 1) ∧
  (∀ i, i < ues.length → (0 : ℝ) < f i + 1e-9) ∧
  0 < sim.mimo_gain ∧
  0 < sim.total_bw_hz ∧
  (∀ ue ∈ ues, ∀ i, (0 : ℝ) < 1 + snr_lin_of sim ue (f i)) ∧
  (sim.num_ues : ℝ) ≠ 0 ∧
  (∀ ue ∈ ues, (0 : ℝ) < ue.avg_throughput + 1e-9) ∧
  0 < (pf_weights (instCaps sim ues f) ues).sum ∧
  (0 : ℝ) < 1e6 ∧
  (∀ p ∈ List.zip (stepAlloc sim ues f) (snrsLinear sim ues f),
    (0 : ℝ) < cap_bps_of p.1 p.2 + 1e-9) ∧
  (0 : ℝ) < 3e8

/-! ### Basic positivity facts about the channel chain -/

theorem snr_lin_pos (sim : FiveGSimulator) (ue : UE) (fading : ℝ) :
    0 < snr_lin_of sim ue fading :=
  Real.rpow_pos_of_pos (by norm_num) _

theorem inst_cap_pos (sim : FiveGSimulator) (ue : UE) (fading : ℝ)
    (hB : 0 < sim.total_bw_hz) : 0 < inst_cap_of sim ue fading :=
  mul_pos hB (Real.logb_pos (by norm_num)
    (by linarith [snr_lin_pos sim ue fading]))

theorem cap_bps_nonneg (bw snr_lin : ℝ) (hbw : 0 ≤ bw) (hs : 0 < snr_lin) :
    0 ≤ cap_bps_of bw snr_lin :=
  mul_nonneg hbw (Real.logb_nonneg (by norm_num) (by linarith))

/-! ### Lengths and indexed elements of the phase functions -/

theorem linkPhase_length (sim : FiveGSimulator) (ues : List UE) (f : ℕ → ℝ) :
    (linkPhase sim ues f).length = ues.length := by
  simp [linkPhase]

theorem snrsLinear_length (sim : FiveGSimulator) (ues : List UE) (f : ℕ → ℝ) :
    (snrsLinear sim ues f).length = ues.length := by
  simp [snrsLinear]

theorem instCaps_length (sim : FiveGSimulator) (ues : List UE) (f : ℕ → ℝ) :
    (instCaps sim ues f).length = ues.length := by
  simp [instCaps]

theorem linkPhase_get (sim : FiveGSimulator) (ues : List UE) (f : ℕ → ℝ)
    (i : ℕ) (hi : i < ues.length) (hi' : i < (linkPhase sim ues f).length) :
    (linkPhase sim ues f).get ⟨i, hi'⟩ =
      { ues.get ⟨i, hi⟩ with
        snr_history := (ues.get ⟨i, hi⟩).snr_history
          ++ [snr_db_of sim (ues.get ⟨i, hi⟩) (f i)] } := by
  simp [linkPhase, List.getElem_zipWith]

theorem snrsLinear_get (sim : FiveGSimulator) (ues : List UE) (f : ℕ → ℝ)
    (i : ℕ) (hi : i < ues.length) (hi' : i < (snrsLinear sim ues f).length) :
    (snrsLinear sim ues f).get ⟨i, hi'⟩ = snr_lin_of sim (ues.get ⟨i, hi⟩) (f i) := by
  simp [snrsLinear, List.getElem_zipWith]

theorem instCaps_get (sim : FiveGSimulator) (ues : List UE) (f : ℕ → ℝ)
    (i : ℕ) (hi : i < ues.length) (hi' : i < (instCaps sim ues f).length) :
    (instCaps sim ues f).get ⟨i, hi'⟩ = inst_cap_of sim (ues.get ⟨i, hi⟩) (f i) := by
  simp [instCaps, List.getElem_zipWith]

theorem instCaps_mem_pos (sim : FiveGSimulator) (ues : List UE) (f : ℕ → ℝ)
    (hB : 0 < sim.total_bw_hz) : ∀ c ∈ instCaps sim ues f, 0 < c := by
  intro c hc
  rcases List.mem_iff_getElem.mp hc with ⟨i, hi, rfl⟩
  have hi2 : i < ues.length := by
    have := instCaps_length sim ues f; omega
  have := instCaps_get sim ues f i hi2 hi
  simp only [List.get_eq_getElem] at this
  rw [this]
  exact inst_cap_pos sim _ _ hB

theorem snrsLinear_mem_pos (sim : FiveGSimulator) (ues : List UE) (f : ℕ → ℝ) :
    ∀ s ∈ snrsLinear sim ues f, 0 < s := by
  intro s hs
  rcases List.mem_iff_getElem.mp hs with ⟨i, hi, rfl⟩
  have hi2 : i < ues.length := by
    have := snrsLinear_length sim ues f; omega
  have := snrsLinear_get sim ues f i hi2 hi
  simp only [List.get_eq_getElem] at this
  rw [this]
  exact snr_lin_pos sim _ _

/-! ### Scheduler allocation facts -/

theorem equal_alloc_length (B : ℝ) (n : ℕ) : (equal_alloc B n).length = n := by
  simp [equal_alloc]

theorem pf_weights_length (caps : List ℝ) (ues : List UE) :
    (pf_weights caps ues).length = min caps.length ues.length := by
  simp [pf_weights]

theorem pf_alloc_length (B : ℝ) (caps : List ℝ) (ues : List UE) :
    (pf_alloc B caps ues).length = min caps.length ues.length := by
  simp [pf_alloc, pf_weights]

theorem pf_weights_get (caps : List ℝ) (ues : List UE) (i : ℕ)
    (h1 : i < caps.length) (h2 : i < ues.length)
    (hi : i < (pf_weights caps ues).length) :
    (pf_weights caps ues).get ⟨i, hi⟩ =
      caps.get ⟨i, h1⟩ / ((ues.get ⟨i, h2⟩).avg_throughput + 1e-9) := by
  simp [pf_weights, List.getElem_zipWith]

theorem pf_alloc_get (B : ℝ) (caps : List ℝ) (ues : List UE) (i : ℕ)
    (h1 : i < caps.length) (h2 : i < ues.length)
    (hi : i < (pf_alloc B caps ues).length) :
    (pf_alloc B caps ues).get ⟨i, hi⟩ =
      caps.get ⟨i, h1⟩ / ((ues.get ⟨i, h2⟩).avg_throughput + 1e-9)
        / (pf_weights caps ues).sum * B := by
  have hw : i < (pf_weights caps ues).length := by
    rw [pf_weights_length]; rw [pf_alloc_length] at hi; exact hi
  simp [pf_alloc, List.getElem_map, pf_weights, List.getElem_zipWith]

theorem pf_weights_mem_pos (caps : List ℝ) (ues : List UE)
    (hc : ∀ c ∈ caps, 0 < c) (ha : ∀ ue ∈ ues, 0 < ue.avg_throughput) :
    ∀ w ∈ pf_weights caps ues, 0 < w := by
  intro w hw
  rcases List.mem_iff_getElem.mp hw with ⟨i, hi, rfl⟩
  have h1 : i < caps.length := by
    have := pf_weights_length caps ues; omega
  have h2 : i < ues.length := by
    have := pf_weights_length caps ues; omega
  have := pf_weights_get caps ues i h1 h2 hi
  simp only [List.get_eq_getElem] at this
  rw [this]
  exact div_pos (hc _ (List.getElem_mem h1))
    (by linarith [ha _ (List.getElem_mem h2)])

theorem pf_weights_sum_pos (caps : List ℝ) (ues : List UE)
    (hc : ∀ c ∈ caps, 0 < c) (ha : ∀ ue ∈ ues, 0 < ue.avg_throughput)
    (hne : 0 < min caps.length ues.length) :
    0 < (pf_weights caps ues).sum := by
  apply List.sum_pos _ (pf_weights_mem_pos caps ues hc ha)
  have := pf_weights_length caps ues
  intro h
  rw [h] at this
  simp at this
  omega

theorem sum_map_div_mul (l : List ℝ) (T B : ℝ) :
    (l.map (fun w => w / T * B)).sum = l.sum / T * B := by
  induction l with
  | nil => simp
  | cons a t ih => simp [ih]; ring

theorem pf_alloc_sum (B : ℝ) (caps : List ℝ) (ues : List UE)
    (hT : (pf_weights caps ues).sum ≠ 0) :
    (pf_alloc B caps ues).sum = B := by
  simp only [pf_alloc]
  rw [sum_map_div_mul, div_self hT, one_mul]

theorem pf_alloc_mem_pos (B : ℝ) (caps : List ℝ) (ues : List UE)
    (hB : 0 < B) (hc : ∀ c ∈ caps, 0 < c)
    (ha : ∀ ue ∈ ues, 0 < ue.avg_throughput)
    (hne : 0 < min caps.length ues.length) :
    ∀ x ∈ pf_alloc B caps ues, 0 < x := by
  intro x hx
  simp only [pf_alloc, List.mem_map] at hx
  rcases hx with ⟨w, hw, rfl⟩
  exact mul_pos (div_pos (pf_weights_mem_pos caps ues hc ha w hw)
    (pf_weights_sum_pos caps ues hc ha hne)) hB

/-! ### The allocation contract of one step -/

theorem stepAlloc_spec (sim : FiveGSimulator) (ues : List UE) (f : ℕ → ℝ)
    (hsched : sim.scheduler = "equal" ∨ sim.scheduler = "pf")
    (hlen : ues.length = sim.num_ues) (hn : 0 < sim.num_ues)
    (hB : 0 < sim.total_bw_hz)
    (havg : ∀ ue ∈ ues, 0 < ue.avg_throughput) :
    (stepAlloc sim ues f).length = sim.num_ues ∧
      (∀ x ∈ stepAlloc sim ues f, 0 < x) ∧
      (stepAlloc sim ues f).sum = sim.total_bw_hz := by
  rcases hsched with h | h
  · rw [stepAlloc, if_pos h]
    refine ⟨equal_alloc_length _ _, ?_, ?_⟩
    · intro x hx
      rw [equal_alloc, List.mem_replicate] at hx
      rw [hx.2]
      exact div_pos hB (by exact_mod_cast hn)
    · rw [equal_alloc, List.sum_replicate, nsmul_eq_mul, mul_comm,
        div_mul_cancel₀]
      exact_mod_cast hn.ne.symm
  · have hne : sim.scheduler ≠ "equal" := by rw [h]; decide
    rw [stepAlloc, if_neg hne]
    have hcaps := instCaps_mem_pos sim ues f hB
    have hlc : (instCaps sim ues f).length = ues.length := instCaps_length sim ues f
    have hmin : 0 < min (instCaps sim ues f).length ues.length := by
      rw [hlc]; omega
    refine ⟨?_, pf_alloc_mem_pos _ _ _ hB hcaps havg hmin, pf_alloc_sum _ _ _
      (pf_weights_sum_pos _ _ hcaps havg hmin).ne.symm⟩
    rw [pf_alloc_length, hlc]
    omega

/-! ### Characterization of one loop iteration -/

theorem simStep_valid (sim : FiveGSimulator) (ues : List UE) (f : ℕ → ℝ)
    (hsched : sim.scheduler = "equal" ∨ sim.scheduler = "pf") :
    simStep sim ues f =
      (metricsPhase (linkPhase sim ues f) (stepAlloc sim ues f)
        (snrsLinear sim ues f), none) := by
  rcases hsched with h | h
  · rw [simStep, if_pos h]
  · have hne : sim.scheduler ≠ "equal" := by rw [h]; decide
    rw [simStep, if_neg hne, if_pos h]

theorem simStep_invalid (sim : FiveGSimulator) (ues : List UE) (f : ℕ → ℝ)
    (h1 : sim.scheduler ≠ "equal") (h2 : sim.scheduler ≠ "pf") :
    simStep sim ues f = (linkPhase sim ues f, some schedulerErrorMsg) := by
  rw [simStep, if_neg h1, if_neg h2]

theorem metricsPhase_length (ues : List UE) (bw_alloc snrs : List ℝ) :
    (metricsPhase ues bw_alloc snrs).length =
      min ues.length (min bw_alloc.length snrs.length) := by
  simp [metricsPhase]

theorem metricsPhase_get (ues : List UE) (bw_alloc snrs : List ℝ) (i : ℕ)
    (h1 : i < ues.length) (h2 : i < bw_alloc.length) (h3 : i < snrs.length)
    (hi : i < (metricsPhase ues bw_alloc snrs).length) :
    (metricsPhase ues bw_alloc snrs).get ⟨i, hi⟩ =
      metricsStep (ues.get ⟨i, h1⟩) (bw_alloc.get ⟨i, h2⟩) (snrs.get ⟨i, h3⟩) := by
  simp [metricsPhase, List.getElem_zipWith, List.getElem_zip]

theorem simStep_fst_length (sim : FiveGSimulator) (ues : List UE) (f : ℕ → ℝ)
    (hsched : sim.scheduler = "equal" ∨ sim.scheduler = "pf")
    (hlen : ues.length = sim.num_ues) (hn : 0 < sim.num_ues)
    (hB : 0 < sim.total_bw_hz)
    (havg : ∀ ue ∈ ues, 0 < ue.avg_throughput) :
    (simStep sim ues f).1.length = sim.num_ues := by
  rw [simStep_valid sim ues f hsched]
  rw [metricsPhase_length, linkPhase_length, snrsLinear_length,
    (stepAlloc_spec sim ues f hsched hlen hn hB havg).1]
  omega

theorem simStep_get (sim : FiveGSimulator) (ues : List UE) (f : ℕ → ℝ)
    (hsched : sim.scheduler = "equal" ∨ sim.scheduler = "pf")
    (i : ℕ) (hi : i < ues.length) (hia : i < (stepAlloc sim ues f).length)
    (hi' : i < (simStep sim ues f).1.length) :
    (simStep sim ues f).1.get ⟨i, hi'⟩ =
      metricsStep
        { ues.get ⟨i, hi⟩ with
          snr_history := (ues.get ⟨i, hi⟩).snr_history
            ++ [snr_db_of sim (ues.get ⟨i, hi⟩) (f i)] }
        ((stepAlloc sim ues f).get ⟨i, hia⟩)
        (snr_lin_of sim (ues.get ⟨i, hi⟩) (f i)) := by
  have hv := simStep_valid sim ues f hsched
  have hfst : (simStep sim ues f).1 = metricsPhase (linkPhase sim ues f)
      (stepAlloc sim ues f) (snrsLinear sim ues f) := by rw [hv]
  have h1 : i < (linkPhase sim ues f).length := by
    rw [linkPhase_length]; exact hi
  have h3 : i < (snrsLinear sim ues f).length := by
    rw [snrsLinear_length]; exact hi
  have hi'' : i < (metricsPhase (linkPhase sim ues f) (stepAlloc sim ues f)
      (snrsLinear sim ues f)).length := by
    rw [← hfst]; exact hi'
  have hm := metricsPhase_get (linkPhase sim ues f) (stepAlloc sim ues f)
    (snrsLinear sim ues f) i h1 hia h3 hi''
  have hl := linkPhase_get sim ues f i hi h1
  have hs := snrsLinear_get sim ues f i hi h3
  simp only [List.get_eq_getElem] at hm hl hs ⊢
  rw [List.getElem_of_eq hfst hi', hm, hl, hs]

theorem simStep_mem (sim : FiveGSimulator) (ues : List UE) (f : ℕ → ℝ)
    (hsched : sim.scheduler = "equal" ∨ sim.scheduler = "pf")
    (hlen : ues.length = sim.num_ues)
    (ue' : UE) (hmem : ue' ∈ (simStep sim ues f).1) :
    ∃ (i : ℕ) (hi : i < ues.length) (hia : i < (stepAlloc sim ues f).length),
      ue' = metricsStep
        { ues.get ⟨i, hi⟩ with
          snr_history := (ues.get ⟨i, hi⟩).snr_history
            ++ [snr_db_of sim (ues.get ⟨i, hi⟩) (f i)] }
        ((stepAlloc sim ues f).get ⟨i, hia⟩)
        (snr_lin_of sim (ues.get ⟨i, hi⟩) (f i)) := by
  rcases List.mem_iff_getElem.mp hmem with ⟨i, hi', hh⟩
  have hlen' : (simStep sim ues f).1.length ≤ ues.length := by
    rw [simStep_valid sim ues f hsched, metricsPhase_length, linkPhase_length]
    omega
  have hi : i < ues.length := lt_of_lt_of_le hi' hlen'
  have hia : i < (stepAlloc sim ues f).length := by
    rcases hsched with h | h
    · rw [stepAlloc, if_pos h, equal_alloc_length]; omega
    · have hne : sim.scheduler ≠ "equal" := by rw [h]; decide
      rw [stepAlloc, if_neg hne, pf_alloc_length, instCaps_length]
      omega
  refine ⟨i, hi, hia, ?_⟩
  have hg := simStep_get sim ues f hsched i hi hia hi'
  simp only [List.get_eq_getElem] at hg
  rw [← hh, hg]
  simp only [List.get_eq_getElem]

/-! ### Field-level facts about `metricsStep` -/

theorem metricsStep_avg (ue : UE) (bw snr_lin : ℝ) :
    (metricsStep ue bw snr_lin).avg_throughput =
      0.9 * ue.avg_throughput + 0.1 * (cap_bps_of bw snr_lin / 1e6) := rfl

theorem metricsStep_throughput (ue : UE) (bw snr_lin : ℝ) :
    (metricsStep ue bw snr_lin).throughput_history =
      ue.throughput_history ++ [cap_bps_of bw snr_lin / 1e6] := rfl

theorem metricsStep_latency (ue : UE) (bw snr_lin : ℝ) :
    (metricsStep ue bw snr_lin).latency_history =
      ue.latency_history ++ [latency_ms_of ue.distance (cap_bps_of bw snr_lin)] := rfl

theorem metricsStep_snr (ue : UE) (bw snr_lin : ℝ) :
    (metricsStep ue bw snr_lin).snr_history = ue.snr_history := rfl

theorem metricsStep_distance (ue : UE) (bw snr_lin : ℝ) :
    (metricsStep ue bw snr_lin).distance = ue.distance := rfl

theorem metricsStep_avg_pos (ue : UE) (bw snr_lin : ℝ)
    (ha : 0 < ue.avg_throughput) (hbw : 0 ≤ bw) (hs : 0 < snr_lin) :
    0 < (metricsStep ue bw snr_lin).avg_throughput := by
  rw [metricsStep_avg]
  have := cap_bps_nonneg bw snr_lin hbw hs
  nlinarith

/-! ### Unfolding the loop of `run` -/

theorem runSteps_succ (sim : FiveGSimulator) (fad : ℕ → ℕ → ℝ) (n : ℕ) :
    runSteps sim fad (n + 1) =
      match runSteps sim fad n with
      | (ues, none) => simStep sim ues (fad n)
      | (ues, some e) => (ues, some e) := rfl

theorem runSteps_succ_of_none (sim : FiveGSimulator) (fad : ℕ → ℕ → ℝ) (n : ℕ)
    (h : (runSteps sim fad n).2 = none) :
    runSteps sim fad (n + 1) = simStep sim (runSteps sim fad n).1 (fad n) := by
  rcases hx : runSteps sim fad n with ⟨ues, err⟩
  rw [hx] at h
  simp only at h
  subst h
  rw [runSteps_succ, hx]

theorem runSteps_succ_of_some (sim : FiveGSimulator) (fad : ℕ → ℕ → ℝ) (n : ℕ)
    (e : String) (h : (runSteps sim fad n).2 = some e) :
    runSteps sim fad (n + 1) = runSteps sim fad n := by
  rcases hx : runSteps sim fad n with ⟨ues, err⟩
  rw [hx] at h
  simp only at h
  subst h
  rw [runSteps_succ, hx]

theorem runSteps_none (sim : FiveGSimulator) (fad : ℕ → ℕ → ℝ)
    (hsched : sim.scheduler = "equal" ∨ sim.scheduler = "pf") :
    ∀ n, (runSteps sim fad n).2 = none := by
  intro n
  induction n with
  | zero => rfl
  | succ n ih =>
    rw [runSteps_succ_of_none sim fad n ih, simStep_valid sim _ _ hsched]

/-! ### Run-level invariants -/

theorem runSteps_len (sim : FiveGSimulator) (fad : ℕ → ℕ → ℝ)
    (hsched : sim.scheduler = "equal" ∨ sim.scheduler = "pf")
    (hlen : sim.ues.length = sim.num_ues) :
    ∀ n, (runSteps sim fad n).1.length = sim.num_ues := by
  intro n
  induction n with
  | zero => exact hlen
  | succ n ih =>
    rw [runSteps_succ_of_none sim fad n (runSteps_none sim fad hsched n),
      simStep_valid sim _ _ hsched]
    simp only [metricsPhase_length, linkPhase_length, snrsLinear_length]
    have hia : (stepAlloc sim (runSteps sim fad n).1 (fad n)).length =
        sim.num_ues := by
      rcases hsched with h | h
      · rw [stepAlloc, if_pos h, equal_alloc_length]
      · have hne : sim.scheduler ≠ "equal" := by rw [h]; decide
        rw [stepAlloc, if_neg hne, pf_alloc_length, instCaps_length]
        omega
    omega

theorem runSteps_avg_pos (sim : FiveGSimulator) (fad : ℕ → ℕ → ℝ)
    (hsched : sim.scheduler = "equal" ∨ sim.scheduler = "pf")
    (hlen : sim.ues.length = sim.num_ues) (hB : 0 < sim.total_bw_hz)
    (havg : ∀ ue ∈ sim.ues, 0 < ue.avg_throughput) :
    ∀ n, ∀ ue ∈ (runSteps sim fad n).1, 0 < ue.avg_throughput := by
  intro n
  induction n with
  | zero => exact havg
  | succ n ih =>
    rw [runSteps_succ_of_none sim fad n (runSteps_none sim fad hsched n)]
    intro ue' hmem
    have hl : (runSteps sim fad n).1.length = sim.num_ues :=
      runSteps_len sim fad hsched hlen n
    rcases simStep_mem sim _ (fad n) hsched hl ue' hmem with ⟨i, hi, hia, rfl⟩
    have hn : 0 < sim.num_ues := by omega
    have hspec := stepAlloc_spec sim (runSteps sim fad n).1 (fad n) hsched hl hn hB ih
    apply metricsStep_avg_pos
    · simp only [List.get_eq_getElem]
      exact ih _ (List.getElem_mem hi)
    · refine le_of_lt (hspec.2.1 _ ?_)
      simp only [List.get_eq_getElem]
      exact List.getElem_mem hia
    · exact snr_lin_pos sim _ _

theorem runSteps_dist_pos (sim : FiveGSimulator) (fad : ℕ → ℕ → ℝ)
    (hsched : sim.scheduler = "equal" ∨ sim.scheduler = "pf")
    (hlen : sim.ues.length = sim.num_ues)
    (hdist : ∀ ue ∈ sim.ues, 0 < ue.distance) :
    ∀ n, ∀ ue ∈ (runSteps sim fad n).1, 0 < ue.distance := by
  intro n
  induction n with
  | zero => exact hdist
  | succ n ih =>
    rw [runSteps_succ_of_none sim fad n (runSteps_none sim fad hsched n)]
    intro ue' hmem
    have hl : (runSteps sim fad n).1.length = sim.num_ues :=
      runSteps_len sim fad hsched hlen n
    rcases simStep_mem sim _ (fad n) hsched hl ue' hmem with ⟨i, hi, hia, rfl⟩
    rw [metricsStep_distance]
    simp only [List.get_eq_getElem]
    exact ih _ (List.getElem_mem hi)

theorem runSteps_hist_len (sim : FiveGSimulator) (fad : ℕ → ℕ → ℝ)
    (hsched : sim.scheduler = "equal" ∨ sim.scheduler = "pf")
    (hlen : sim.ues.length = sim.num_ues)
    (hinit : ∀ ue ∈ sim.ues, ue.throughput_history = [] ∧
      ue.latency_history = [] ∧ ue.snr_history = []) :
    ∀ n, ∀ ue ∈ (runSteps sim fad n).1,
      ue.throughput_history.length = n ∧ ue.latency_history.length = n ∧
        ue.snr_history.length = n := by
  intro n
  induction n with
  | zero =>
    intro ue hmem
    rcases hinit ue hmem with ⟨h1, h2, h3⟩
    rw [h1, h2, h3]
    simp
  | succ n ih =>
    rw [runSteps_succ_of_none sim fad n (runSteps_none sim fad hsched n)]
    intro ue' hmem
    have hl : (runSteps sim fad n).1.length = sim.num_ues :=
      runSteps_len sim fad hsched hlen n
    rcases simStep_mem sim _ (fad n) hsched hl ue' hmem with ⟨i, hi, hia, rfl⟩
    have hold : ((runSteps sim fad n).1.get ⟨i, hi⟩).throughput_history.length = n ∧
        ((runSteps sim fad n).1.get ⟨i, hi⟩).latency_history.length = n ∧
        ((runSteps sim fad n).1.get ⟨i, hi⟩).snr_history.length = n := by
      apply ih
      simp only [List.get_eq_getElem]
      exact List.getElem_mem hi
    refine ⟨?_, ?_, ?_⟩
    · rw [metricsStep_throughput]
      simp only [List.length_append, List.length_cons, List.length_nil]
      have : ({ (runSteps sim fad n).1.get ⟨i, hi⟩ with
          snr_history := ((runSteps sim fad n).1.get ⟨i, hi⟩).snr_history
            ++ [snr_db_of sim ((runSteps sim fad n).1.get ⟨i, hi⟩) (fad n i)] }).throughput_history
          = ((runSteps sim fad n).1.get ⟨i, hi⟩).throughput_history := rfl
      rw [this, hold.1]
    · rw [metricsStep_latency]
      simp only [List.length_append, List.length_cons, List.length_nil]
      have : ({ (runSteps sim fad n).1.get ⟨i, hi⟩ with
          snr_history := ((runSteps sim fad n).1.get ⟨i, hi⟩).snr_history
            ++ [snr_db_of sim ((runSteps sim fad n).1.get ⟨i, hi⟩) (fad n i)] }).latency_history
          = ((runSteps sim fad n).1.get ⟨i, hi⟩).latency_history := rfl
      rw [this, hold.2.1]
    · rw [metricsStep_snr]
      have : ({ (runSteps sim fad n).1.get ⟨i, hi⟩ with
          snr_history := ((runSteps sim fad n).1.get ⟨i, hi⟩).snr_history
            ++ [snr_db_of sim ((runSteps sim fad n).1.get ⟨i, hi⟩) (fad n i)] }).snr_history
          = ((runSteps sim fad n).1.get ⟨i, hi⟩).snr_history
            ++ [snr_db_of sim ((runSteps sim fad n).1.get ⟨i, hi⟩) (fad n i)] := rfl
      rw [this]
      simp only [List.length_append, List.length_cons, List.length_nil]
      rw [hold.2.2]

theorem simEq_ues : simEq.ues = [UE.init 0 100] := by
  simp [simEq, FiveGSimulator.init, List.range_succ, draws100]

theorem simPf_ues : simPf.ues = [UE.init 0 100] := by
  simp [simPf, FiveGSimulator.init, List.range_succ, draws100]

theorem simFoo_ues : simFoo.ues = [UE.init 0 100] := by
  simp [simFoo, FiveGSimulator.init, List.range_succ, draws100]

theorem simNeg_ues : simNeg.ues = [UE.init 0 100] := by
  simp [simNeg, FiveGSimulator.init, List.range_succ, draws100]

theorem simEq_ues_avg : ∀ ue ∈ simEq.ues, 0 < ue.avg_throughput := by
  rw [simEq_ues]
  intro ue hue
  rw [List.mem_singleton] at hue
  rw [hue]
  show (0:ℝ) < 1e-6
  norm_num

theorem simPf_ues_avg : ∀ ue ∈ simPf.ues, 0 < ue.avg_throughput := by
  rw [simPf_ues]
  intro ue hue
  rw [List.mem_singleton] at hue
  rw [hue]
  show (0:ℝ) < 1e-6
  norm_num

theorem stepAlloc_len (sim : FiveGSimulator) (ues : List UE) (f : ℕ → ℝ)
    (hsched : sim.scheduler = "equal" ∨ sim.scheduler = "pf")
    (hlen : ues.length = sim.num_ues) :
    (stepAlloc sim ues f).length = sim.num_ues := by
  rcases hsched with h | h
  · rw [stepAlloc, if_pos h, equal_alloc_length]
  · have hne : sim.scheduler ≠ "equal" := by rw [h]; decide
    rw [stepAlloc, if_neg hne, pf_alloc_length, instCaps_length]
    omega

/-! ### C1 -/

/-- C1: at every step of a run, for both scheduler variants, the bandwidth
allocation computed by the step has one value per terminal, every value is
nonnegative, and the values sum exactly to the total bandwidth. -/
theorem alloc_contract_every_step (sim : FiveGSimulator) (fad : ℕ → ℕ → ℝ)
    (hsched : sim.scheduler = "equal" ∨ sim.scheduler = "pf")
    (hlen : sim.ues.length = sim.num_ues) (hn : 0 < sim.num_ues)
    (hB : 0 < sim.total_bw_hz)
    (havg : ∀ ue ∈ sim.ues, 0 < ue.avg_throughput) (n : ℕ) :
    (stepAlloc sim (runSteps sim fad n).1 (fad n)).length = sim.num_ues ∧
      (∀ x ∈ stepAlloc sim (runSteps sim fad n).1 (fad n), 0 ≤ x) ∧
      (stepAlloc sim (runSteps sim fad n).1 (fad n)).sum = sim.total_bw_hz := by
  have hl := runSteps_len sim fad hsched hlen n
  have ha := runSteps_avg_pos sim fad hsched hlen hB havg n
  have h := stepAlloc_spec sim _ (fad n) hsched hl hn hB ha
  exact ⟨h.1, fun x hx => le_of_lt (h.2.1 x hx), h.2.2⟩

theorem alloc_contract_every_step_witness :
    ((stepAlloc simEq (runSteps simEq fadOne 0).1 (fadOne 0)).length = simEq.num_ues ∧
      (∀ x ∈ stepAlloc simEq (runSteps simEq fadOne 0).1 (fadOne 0), 0 ≤ x) ∧
      (stepAlloc simEq (runSteps simEq fadOne 0).1 (fadOne 0)).sum = simEq.total_bw_hz) ∧
    ((stepAlloc simPf (runSteps simPf fadOne 0).1 (fadOne 0)).length = simPf.num_ues ∧
      (∀ x ∈ stepAlloc simPf (runSteps simPf fadOne 0).1 (fadOne 0), 0 ≤ x) ∧
      (stepAlloc simPf (runSteps simPf fadOne 0).1 (fadOne 0)).sum = simPf.total_bw_hz) :=
  ⟨alloc_contract_every_step simEq fadOne (Or.inl rfl)
      (by rw [simEq_ues]; rfl) (by norm_num [simEq, FiveGSimulator.init])
      (by norm_num [simEq, FiveGSimulator.init]) simEq_ues_avg 0,
    alloc_contract_every_step simPf fadOne (Or.inr rfl)
      (by rw [simPf_ues]; rfl) (by norm_num [simPf, FiveGSimulator.init])
      (by norm_num [simPf, FiveGSimulator.init]) simPf_ues_avg 0⟩

/-! ### C2 -/

theorem runSteps_invalid_sched (sim : FiveGSimulator) (fad : ℕ → ℕ → ℝ)
    (h1 : sim.scheduler ≠ "equal") (h2 : sim.scheduler ≠ "pf") :
    ∀ m, runSteps sim fad (m + 1) =
      (linkPhase sim sim.ues (fad 0), some schedulerErrorMsg) := by
  intro m
  induction m with
  | zero =>
    rw [runSteps_succ_of_none sim fad 0 rfl]
    exact simStep_invalid sim _ _ h1 h2
  | succ m ih =>
    rw [runSteps_succ_of_some sim fad (m + 1) schedulerErrorMsg (by rw [ih])]
    exact ih

/-- C2 counterexample: with the unrecognized scheduler `"foo"`, one terminal
and one step, the run does raise the configuration error, but the claim that
every history stays empty is false: the SNR history of the terminal is not
empty when the error is raised (the link phase precedes the scheduler
check). -/
theorem bad_scheduler_counterexample :
    (FiveGSimulator.run simFoo fadOne).2 = some schedulerErrorMsg ∧
    ¬ (∀ ue ∈ (FiveGSimulator.run simFoo fadOne).1, ue.snr_history = []) := by
  have hrun : FiveGSimulator.run simFoo fadOne =
      (linkPhase simFoo simFoo.ues (fadOne 0), some schedulerErrorMsg) :=
    runSteps_invalid_sched simFoo fadOne (by decide) (by decide) 0
  constructor
  · rw [hrun]
  · intro hall
    have h0 : (0 : ℕ) < simFoo.ues.length := by rw [simFoo_ues]; simp
    have hlen1 : (0 : ℕ) < (linkPhase simFoo simFoo.ues (fadOne 0)).length := by
      rw [linkPhase_length]; exact h0
    have hmem : (linkPhase simFoo simFoo.ues (fadOne 0))[0] ∈
        (FiveGSimulator.run simFoo fadOne).1 := by
      rw [hrun]
      exact List.getElem_mem hlen1
    have hempty := hall _ hmem
    have hg := linkPhase_get simFoo simFoo.ues (fadOne 0) 0 h0 hlen1
    simp only [List.get_eq_getElem] at hg
    rw [hg] at hempty
    simp at hempty

/-- C2 amended: with an unrecognized scheduler selector and at least one
configured step, the run raises the `ValueError` during the first loop
iteration — after the link phase — not before any step work: every
terminal's throughput and latency histories are still empty, but every
terminal's SNR history has already received exactly one sample.  With zero
configured steps no error is raised at all. -/
theorem bad_scheduler_error_after_link (sim : FiveGSimulator) (fad : ℕ → ℕ → ℝ)
    (h1 : sim.scheduler ≠ "equal") (h2 : sim.scheduler ≠ "pf")
    (hinit : ∀ ue ∈ sim.ues, ue.throughput_history = [] ∧
      ue.latency_history = [] ∧ ue.snr_history = [])
    (n : ℕ) (hn : 0 < n) :
    (runSteps sim fad n).2 = some schedulerErrorMsg ∧
    (∀ ue ∈ (runSteps sim fad n).1, ue.throughput_history = [] ∧
      ue.latency_history = [] ∧ ue.snr_history.length = 1) ∧
    (runSteps sim fad 0).2 = none := by
  obtain ⟨m, rfl⟩ : ∃ m, n = m + 1 := ⟨n - 1, by omega⟩
  rw [runSteps_invalid_sched sim fad h1 h2 m]
  refine ⟨rfl, ?_, rfl⟩
  intro ue hmem
  rcases List.mem_iff_getElem.mp hmem with ⟨i, hi, rfl⟩
  have hi2 : i < sim.ues.length := by
    have := linkPhase_length sim sim.ues (fad 0)
    simp only [] at hi
    omega
  have hg := linkPhase_get sim sim.ues (fad 0) i hi2 (by rwa [linkPhase_length])
  simp only [List.get_eq_getElem] at hg
  rw [hg]
  rcases hinit _ (List.getElem_mem hi2) with ⟨ht, hl, hs⟩
  refine ⟨ht, hl, ?_⟩
  show ((sim.ues[i]).snr_history ++ [snr_db_of sim (sim.ues[i]) (fad 0 i)]).length = 1
  rw [hs]
  rfl

theorem bad_scheduler_error_after_link_witness :
    (runSteps simFoo fadOne 1).2 = some schedulerErrorMsg ∧
    (∀ ue ∈ (runSteps simFoo fadOne 1).1, ue.throughput_history = [] ∧
      ue.latency_history = [] ∧ ue.snr_history.length = 1) ∧
    (runSteps simFoo fadOne 0).2 = none :=
  bad_scheduler_error_after_link simFoo fadOne (by decide) (by decide)
    (by
      rw [simFoo_ues]
      intro ue hue
      rw [List.mem_singleton] at hue
      rw [hue]
      exact ⟨rfl, rfl, rfl⟩)
    1 (by decide)

/-! ### C3 -/

/-- C3: for every terminal and every step of a run (valid scheduler), the
running average after the step equals exactly `0.9` times its value before
the step plus `0.1` times the throughput sample the step appended to that
terminal's throughput history. -/
theorem ema_exact_update (sim : FiveGSimulator) (fad : ℕ → ℕ → ℝ)
    (hsched : sim.scheduler = "equal" ∨ sim.scheduler = "pf")
    (hlen : sim.ues.length = sim.num_ues)
    (n i : ℕ) (hi : i < sim.num_ues) :
    ∃ sample : ℝ,
      ((runSteps sim fad (n + 1)).1.getD i default).throughput_history
        = ((runSteps sim fad n).1.getD i default).throughput_history ++ [sample] ∧
      ((runSteps sim fad (n + 1)).1.getD i default).avg_throughput
        = 0.9 * ((runSteps sim fad n).1.getD i default).avg_throughput
          + 0.1 * sample := by
  have hl := runSteps_len sim fad hsched hlen n
  have hi' : i < (runSteps sim fad n).1.length := by omega
  have hia : i < (stepAlloc sim (runSteps sim fad n).1 (fad n)).length := by
    rw [stepAlloc_len sim _ (fad n) hsched hl]
    exact hi
  have hstep := runSteps_succ_of_none sim fad n (runSteps_none sim fad hsched n)
  have hi'' : i < (runSteps sim fad (n + 1)).1.length := by
    rw [runSteps_len sim fad hsched hlen (n + 1)]
    exact hi
  have hi''' : i < (simStep sim (runSteps sim fad n).1 (fad n)).1.length := by
    rw [← hstep]
    exact hi''
  have hg := simStep_get sim (runSteps sim fad n).1 (fad n) hsched i hi' hia hi'''
  simp only [List.get_eq_getElem] at hg
  have hfst : (runSteps sim fad (n + 1)).1 =
      (simStep sim (runSteps sim fad n).1 (fad n)).1 := by rw [hstep]
  refine ⟨cap_bps_of ((stepAlloc sim (runSteps sim fad n).1 (fad n))[i])
    (snr_lin_of sim ((runSteps sim fad n).1[i]) (fad n i)) / 1e6, ?_, ?_⟩
  · rw [List.getD_eq_getElem _ _ hi'', List.getD_eq_getElem _ _ hi',
      List.getElem_of_eq hfst hi'', hg, metricsStep_throughput]
  · rw [List.getD_eq_getElem _ _ hi'', List.getD_eq_getElem _ _ hi',
      List.getElem_of_eq hfst hi'', hg, metricsStep_avg]

theorem ema_exact_update_witness :
    ∃ sample : ℝ,
      ((runSteps simEq fadOne 1).1.getD 0 default).throughput_history
        = ((runSteps simEq fadOne 0).1.getD 0 default).throughput_history ++ [sample] ∧
      ((runSteps simEq fadOne 1).1.getD 0 default).avg_throughput
        = 0.9 * ((runSteps simEq fadOne 0).1.getD 0 default).avg_throughput
          + 0.1 * sample :=
  ema_exact_update simEq fadOne (Or.inl rfl) (by rw [simEq_ues]; rfl) 0 0
    (by norm_num [simEq, FiveGSimulator.init])

/-! ### C4 -/

/-- C4: under the proportional-fair scheduler, if two terminals have
identical instantaneous capacities and terminal `i` has strictly smaller
`avg_throughput` than terminal `j`, then terminal `i` receives at least as
much bandwidth as terminal `j`.  The positivity hypotheses hold for every
state a run reaches (capacities are positive when bandwidth is, averages
stay positive). -/
theorem pf_favors_lower_avg (B : ℝ) (caps : List ℝ) (ues : List UE)
    (hB : 0 ≤ B) (hlen : caps.length = ues.length)
    (hc : ∀ c ∈ caps, 0 < c) (ha : ∀ ue ∈ ues, 0 < ue.avg_throughput)
    (i j : ℕ) (hi : i < caps.length) (hj : j < caps.length)
    (hceq : caps.getD i 0 = caps.getD j 0)
    (havg : (ues.getD i default).avg_throughput
      < (ues.getD j default).avg_throughput) :
    (pf_alloc B caps ues).getD j 0 ≤ (pf_alloc B caps ues).getD i 0 := by
  have hi2 : i < ues.length := by omega
  have hj2 : j < ues.length := by omega
  have hia : i < (pf_alloc B caps ues).length := by rw [pf_alloc_length]; omega
  have hja : j < (pf_alloc B caps ues).length := by rw [pf_alloc_length]; omega
  rw [List.getD_eq_getElem _ _ hia, List.getD_eq_getElem _ _ hja]
  have hgi := pf_alloc_get B caps ues i hi hi2 hia
  have hgj := pf_alloc_get B caps ues j hj hj2 hja
  simp only [List.get_eq_getElem] at hgi hgj
  rw [hgi, hgj]
  rw [List.getD_eq_getElem _ _ hi, List.getD_eq_getElem _ _ hj] at hceq
  rw [List.getD_eq_getElem _ _ hi2, List.getD_eq_getElem _ _ hj2] at havg
  have hT : 0 < (pf_weights caps ues).sum :=
    pf_weights_sum_pos caps ues hc ha (by omega)
  rw [← hceq]
  have hci : 0 < caps[i] := hc _ (List.getElem_mem hi)
  have hai : 0 < (ues[i]).avg_throughput := ha _ (List.getElem_mem hi2)
  gcongr

theorem pf_favors_lower_avg_witness :
    (pf_alloc 1 [1, 1]
      [UE.init 0 100, { UE.init 1 100 with avg_throughput := 2 }]).getD 1 0 ≤
    (pf_alloc 1 [1, 1]
      [UE.init 0 100, { UE.init 1 100 with avg_throughput := 2 }]).getD 0 0 :=
  pf_favors_lower_avg 1 [1, 1]
    [UE.init 0 100, { UE.init 1 100 with avg_throughput := 2 }]
    (by norm_num) (by simp)
    (by
      intro c hc
      rcases List.mem_pair.mp hc with rfl | rfl <;> norm_num)
    (by
      intro ue hue
      rcases List.mem_pair.mp hue with rfl | rfl
      · show (0 : ℝ) < 1e-6
        norm_num
      · show (0 : ℝ) < 2
        norm_num)
    0 1 (by simp) (by simp) (by simp)
    (by
      show (UE.init 0 100).avg_throughput < (2 : ℝ)
      show (1e-6 : ℝ) < 2
      norm_num)

/-! ### C5 -/

/-- C5: for every valid configuration, after `n` completed steps every
terminal's three histories all have length exactly `n` (lock-step growth),
and after a completed run every terminal's three histories have length
exactly the configured step count. -/
theorem histories_lockstep (sim : FiveGSimulator) (fad : ℕ → ℕ → ℝ)
    (hsched : sim.scheduler = "equal" ∨ sim.scheduler = "pf")
    (hlen : sim.ues.length = sim.num_ues)
    (hinit : ∀ ue ∈ sim.ues, ue.throughput_history = [] ∧
      ue.latency_history = [] ∧ ue.snr_history = []) :
    (∀ n, ∀ ue ∈ (runSteps sim fad n).1,
      ue.throughput_history.length = n ∧ ue.latency_history.length = n ∧
        ue.snr_history.length = n) ∧
    (∀ ue ∈ (FiveGSimulator.run sim fad).1,
      ue.throughput_history.length = sim.sim_steps ∧
        ue.latency_history.length = sim.sim_steps ∧
        ue.snr_history.length = sim.sim_steps) :=
  ⟨runSteps_hist_len sim fad hsched hlen hinit,
    runSteps_hist_len sim fad hsched hlen hinit sim.sim_steps⟩

theorem histories_lockstep_witness :
    ((FiveGSimulator.run simEq fadOne).1.getD 0 default).throughput_history.length
        = simEq.sim_steps ∧
      ((FiveGSimulator.run simEq fadOne).1.getD 0 default).latency_history.length
        = simEq.sim_steps ∧
      ((FiveGSimulator.run simEq fadOne).1.getD 0 default).snr_history.length
        = simEq.sim_steps := by
  have h := (histories_lockstep simEq fadOne (Or.inl rfl) (by rw [simEq_ues]; rfl)
    (by
      rw [simEq_ues]
      intro ue hue
      rw [List.mem_singleton] at hue
      rw [hue]
      exact ⟨rfl, rfl, rfl⟩)).2
  have hlen := runSteps_len simEq fadOne (Or.inl rfl) (by rw [simEq_ues]; rfl)
    simEq.sim_steps
  have h0 : 0 < (FiveGSimulator.run simEq fadOne).1.length := by
    rw [FiveGSimulator.run, hlen]
    norm_num [simEq, FiveGSimulator.init]
  rw [List.getD_eq_getElem _ _ h0]
  exact h _ (List.getElem_mem h0)

/-! ### C6 -/

/-- C6: `avg_throughput` is initialized to the strictly positive epsilon
`1e-6` at terminal construction and stays strictly positive after every
per-step EMA update, at every step of a run under a valid configuration. -/
theorem avg_throughput_always_pos (sim : FiveGSimulator) (fad : ℕ → ℕ → ℝ)
    (hsched : sim.scheduler = "equal" ∨ sim.scheduler = "pf")
    (hlen : sim.ues.length = sim.num_ues) (hB : 0 < sim.total_bw_hz)
    (havg : ∀ ue ∈ sim.ues, 0 < ue.avg_throughput) :
    (∀ (ueid : ℕ) (d : ℝ), (UE.init ueid d).avg_throughput = 1e-6 ∧
      0 < (UE.init ueid d).avg_throughput) ∧
    ∀ n, ∀ ue ∈ (runSteps sim fad n).1, 0 < ue.avg_throughput :=
  ⟨fun ueid d => ⟨rfl, by show (0 : ℝ) < 1e-6; norm_num⟩,
    runSteps_avg_pos sim fad hsched hlen hB havg⟩

theorem avg_throughput_always_pos_witness :
    ((UE.init 7 250).avg_throughput = 1e-6 ∧
      0 < (UE.init 7 250).avg_throughput) ∧
    ∀ ue ∈ (runSteps simEq fadOne 1).1, 0 < ue.avg_throughput :=
  ⟨(avg_throughput_always_pos simEq fadOne (Or.inl rfl)
      (by rw [simEq_ues]; rfl) (by norm_num [simEq, FiveGSimulator.init])
      simEq_ues_avg).1 7 250,
    (avg_throughput_always_pos simEq fadOne (Or.inl rfl)
      (by rw [simEq_ues]; rfl) (by norm_num [simEq, FiveGSimulator.init])
      simEq_ues_avg).2 1⟩

/-! ### C7 -/

/-- C7 counterexample: at allocated bandwidth `1e6` and linear SNR `1` the
realized capacity is exactly `1e6` bits/sec, and the latency the code
records differs from the spec's formula (transmission time at exactly the
realized capacity): the code divides by the capacity floored by `1e-9`, so
exact equality fails. -/
theorem latency_formula_counterexample :
    (metricsStep (UE.init 0 100) 1e6 1).latency_history ≠
      [spec_latency_ms 100 (cap_bps_of 1e6 1)] := by
  rw [metricsStep_latency]
  have hd : (UE.init 0 100).latency_history = [] := rfl
  have hdist : (UE.init 0 100).distance = 100 := rfl
  rw [hd, hdist]
  have hcap : cap_bps_of 1e6 1 = 1e6 := by
    rw [cap_bps_of, show (1 : ℝ) + 1 = 2 by norm_num,
      @Real.logb_self_eq_one 2 (by norm_num)]
    norm_num
  rw [hcap]
  simp only [List.nil_append, ne_eq, List.cons.injEq, and_true]
  intro h
  rw [latency_ms_of, spec_latency_ms] at h
  norm_num at h

/-- C7 amended: the recorded latency equals transmission time of a 1 Mbit
packet at the realized capacity floored by `1e-9`, plus the propagation
delay `distance / 3e8`, plus the fixed 1 ms processing delay, converted to
milliseconds; this value is strictly positive for every positive distance
and nonnegative capacity (finiteness is implicit in the real-number
embedding). -/
theorem latency_recorded_and_pos (ue : UE) (bw snr_lin : ℝ) :
    (metricsStep ue bw snr_lin).latency_history =
      ue.latency_history
        ++ [latency_ms_of ue.distance (cap_bps_of bw snr_lin)] ∧
    ∀ d C : ℝ, 0 < d → 0 ≤ C → 0 < latency_ms_of d C := by
  refine ⟨metricsStep_latency ue bw snr_lin, ?_⟩
  intro d C hd hC
  show 0 < (1e6 / (C + 1e-9) + d / 3e8 + 1e-3) * 1000
  have heps : (0 : ℝ) < 1e-9 := by norm_num
  have h1 : (0 : ℝ) < C + 1e-9 := by linarith
  have h2 : (0 : ℝ) < 1e6 / (C + 1e-9) := by positivity
  have h3 : (0 : ℝ) < d / 3e8 := by positivity
  have h4 : (0 : ℝ) < 1e-3 := by norm_num
  have h5 : (0 : ℝ) < 1e6 / (C + 1e-9) + d / 3e8 + 1e-3 := by linarith
  exact mul_pos h5 (by norm_num)

theorem latency_recorded_and_pos_witness :
    ((metricsStep (UE.init 0 100) 1 1).latency_history =
      (UE.init 0 100).latency_history
        ++ [latency_ms_of (UE.init 0 100).distance (cap_bps_of 1 1)]) ∧
    0 < latency_ms_of 100 5 :=
  ⟨(latency_recorded_and_pos (UE.init 0 100) 1 1).1,
    (latency_recorded_and_pos (UE.init 0 100) 1 1).2 100 5 (by norm_num)
      (by norm_num)⟩

/-! ### C8 -/

/-- C8 counterexample: with total bandwidth `-1` — invalid per the claim —
and the recognized "equal" scheduler, the run raises no error at all and
completes its full step (the terminal's throughput history has one sample),
and `UE.__init__` accepts the non-positive distance `-5` without rejection:
no configuration validation exists anywhere. -/
theorem no_validation_counterexample :
    (FiveGSimulator.run simNeg fadOne).2 = none ∧
    (FiveGSimulator.run simNeg fadOne).1.map
      (fun ue => ue.throughput_history.length) = [1] ∧
    (UE.init 0 (-5)).distance = -5 := by
  refine ⟨runSteps_none simNeg fadOne (Or.inl rfl) simNeg.sim_steps, ?_, rfl⟩
  have hlen : simNeg.ues.length = simNeg.num_ues := by rw [simNeg_ues]; rfl
  have hl := runSteps_len simNeg fadOne (Or.inl rfl) hlen 1
  have hh := runSteps_hist_len simNeg fadOne (Or.inl rfl) hlen
    (by
      rw [simNeg_ues]
      intro ue hue
      rw [List.mem_singleton] at hue
      rw [hue]
      exact ⟨rfl, rfl, rfl⟩) 1
  show (runSteps simNeg fadOne 1).1.map (fun ue => ue.throughput_history.length)
    = [1]
  have hlm : ((runSteps simNeg fadOne 1).1.map
      (fun ue => ue.throughput_history.length)).length = 1 := by
    rw [List.length_map, hl]
    rfl
  obtain ⟨a, ha⟩ := List.length_eq_one.mp hlm
  rw [ha]
  have hmem : a ∈ (runSteps simNeg fadOne 1).1.map
      (fun ue => ue.throughput_history.length) := by
    rw [ha]
    simp
  rcases List.mem_map.mp hmem with ⟨ue, hue, rfl⟩
  rw [(hh ue hue).1]

/-- C8 amended: the program performs no configuration validation anywhere:
terminal construction stores any distance (non-positive included) without
rejection, and a run under a recognized scheduler raises no error whatever
the bandwidth, terminal count, step count or distances are.  The
unrecognized-scheduler `ValueError` inside the first loop iteration is the
only configuration error the program can raise. -/
theorem no_config_validation (sim : FiveGSimulator) (fad : ℕ → ℕ → ℝ)
    (hsched : sim.scheduler = "equal" ∨ sim.scheduler = "pf") :
    (∀ (i : ℕ) (d : ℝ), (UE.init i d).distance = d) ∧
    ∀ n, (runSteps sim fad n).2 = none :=
  ⟨fun _ _ => rfl, runSteps_none sim fad hsched⟩

theorem no_config_validation_witness :
    (∀ (i : ℕ) (d : ℝ), (UE.init i d).distance = d) ∧
    ∀ n, (runSteps simNeg fadOne n).2 = none :=
  no_config_validation simNeg fadOne (Or.inl rfl)

/-! ### C9 -/

/-- C9: under a valid configuration (positive bandwidth, positive terminal
count, MIMO gain at least 1, positive distances, positive initial averages,
nonnegative Rayleigh draws, recognized scheduler), every step of the run
raises no error and satisfies `stepSafe`: every division and logarithm
argument occurring in the step's computation is strictly positive, thanks to
the epsilon floors on the fading sample, on `avg_throughput` in the fairness
weight denominator, and on the capacity in the latency denominator. -/
theorem no_numeric_degeneracy (sim : FiveGSimulator) (fad : ℕ → ℕ → ℝ)
    (hsched : sim.scheduler = "equal" ∨ sim.scheduler = "pf")
    (hlen : sim.ues.length = sim.num_ues) (hn : 0 < sim.num_ues)
    (hB : 0 < sim.total_bw_hz) (hmimo : 1 ≤ sim.mimo_gain)
    (hdist : ∀ ue ∈ sim.ues, 0 < ue.distance)
    (havg : ∀ ue ∈ sim.ues, 0 < ue.avg_throughput)
    (hfad : ∀ t i, 0 ≤ fad t i) :
    ∀ n, (runSteps sim fad n).2 = none ∧
      stepSafe sim (runSteps sim fad n).1 (fad n) := by
  intro n
  refine ⟨runSteps_none sim fad hsched n, ?_⟩
  have hl := runSteps_len sim fad hsched hlen n
  have ha := runSteps_avg_pos sim fad hsched hlen hB havg n
  have hd := runSteps_dist_pos sim fad hsched hlen hdist n
  have heps : (0 : ℝ) < 1e-9 := by norm_num
  refine ⟨by positivity, ?_, ?_, by linarith, hB, ?_, ?_, ?_, ?_, by norm_num,
    ?_, by norm_num⟩
  · intro ue hue
    have := hd ue hue
    rw [div_one]
    exact this
  · intro i _
    have := hfad n i
    linarith
  · intro ue _ i
    linarith [snr_lin_pos sim ue (fad n i)]
  · have hne : sim.num_ues ≠ 0 := by omega
    exact_mod_cast hne
  · intro ue hue
    have := ha ue hue
    linarith
  · exact pf_weights_sum_pos _ _
      (instCaps_mem_pos sim _ (fad n) hB) ha
      (by simp only [instCaps_length, hl, min_self]; exact hn)
  · intro p hp
    obtain ⟨a, b⟩ := p
    rcases List.of_mem_zip hp with ⟨h1, h2⟩
    have hbw : 0 < a :=
      (stepAlloc_spec sim _ (fad n) hsched hl hn hB ha).2.1 _ h1
    have hs : 0 < b := snrsLinear_mem_pos sim _ (fad n) _ h2
    have := cap_bps_nonneg a b (le_of_lt hbw) hs
    show (0 : ℝ) < cap_bps_of a b + 1e-9
    linarith

theorem no_numeric_degeneracy_witness :
    (runSteps simEq fadOne 0).2 = none ∧
      stepSafe simEq (runSteps simEq fadOne 0).1 (fadOne 0) :=
  no_numeric_degeneracy simEq fadOne (Or.inl rfl) (by rw [simEq_ues]; rfl)
    (by norm_num [simEq, FiveGSimulator.init])
    (by norm_num [simEq, FiveGSimulator.init])
    (by norm_num [simEq, FiveGSimulator.init])
    (by
      rw [simEq_ues]
      intro ue hue
      rw [List.mem_singleton] at hue
      rw [hue]
      show (0 : ℝ) < 100
      norm_num)
    simEq_ues_avg
    (by
      intro t i
      show (0 : ℝ) ≤ 1
      norm_num)
    0

/-! ### C10 -/

/-- C10: at engine initialization each terminal's distance is an
independently drawn value — the `i`-th terminal stores exactly the `i`-th
draw of the random source — and, for every outcome of the random source
satisfying `randint(50, 500)`'s contract, it lies within the drawn range:
at least 50 and strictly below 500 meters (hence within the 50/500 min/max
bounds). -/
theorem distances_within_range (num_ues : ℕ) (B tx nf mimo : ℝ)
    (sched : String) (steps : ℕ) (randint : ℕ → ℕ)
    (hr : ∀ i, 50 ≤ randint i ∧ randint i < 500) :
    ((FiveGSimulator.init num_ues B tx nf mimo sched steps randint).ues.length
      = num_ues) ∧
    ∀ i, i < num_ues →
      ((FiveGSimulator.init num_ues B tx nf mimo sched steps
          randint).ues.getD i default).distance = (randint i : ℝ) ∧
        (50 : ℝ) ≤ (randint i : ℝ) ∧ (randint i : ℝ) < 500 := by
  have hlen : (FiveGSimulator.init num_ues B tx nf mimo sched steps
      randint).ues.length = num_ues := by
    simp [FiveGSimulator.init]
  refine ⟨hlen, ?_⟩
  intro i hi
  refine ⟨?_, by exact_mod_cast (hr i).1, by exact_mod_cast (hr i).2⟩
  rw [List.getD_eq_getElem _ _ (by rw [hlen]; exact hi)]
  simp [FiveGSimulator.init, UE.init]

theorem distances_within_range_witness :
    ((FiveGSimulator.init 2 20e6 43 7 2 "equal" 3 draws100).ues.length = 2) ∧
    ∀ i, i < 2 →
      ((FiveGSimulator.init 2 20e6 43 7 2 "equal" 3
          draws100).ues.getD i default).distance = (draws100 i : ℝ) ∧
        (50 : ℝ) ≤ (draws100 i : ℝ) ∧ (draws100 i : ℝ) < 500 :=
  distances_within_range 2 20e6 43 7 2 "equal" 3 draws100
    (fun i => ⟨by norm_num [draws100], by norm_num [draws100]⟩)
